import Mathlib

/-!
Verification development for the kraken crawler's extraction-and-normalization
pipeline (fetcher: `extractLinks`, `extractAssets`, `extractValidHref`,
`normaliseUrl`, `dedupeUrls`; and the standalone `extractLinks` of main.go).

Go strings are embedded as Lean `String` (a structure holding a `List Char`);
the raw-string manipulations of the source (`strings.LastIndex`, `strings.Cut`,
slicing) are rendered as list operations on `String.data`.  Pointers that may
be nil (`*goquery.Document`, `*html.Node`, the result of `doc.Find`) are
embedded as `Option`; a Go panic from dereferencing nil is embedded as the
result `none` of an `Option`-returning function.
-/

namespace Kraken

/-- Model of Go `strings.HasPrefix` over the character lists of the embedded
strings. -/
def beginsWith : List Char → List Char → Bool
  | _, [] => true
  | [], _ :: _ => false
  | c :: cs, d :: ds => c == d && beginsWith cs ds

/-- Model of Go `strings.ToLower` restricted to the character map (the source
only lowercases URL schemes, which are ASCII). -/
def lowerStr (s : String) : String := ⟨s.data.map Char.toLower⟩

/-- Model of Go `split(s, c, true)` from net/url: cut at the FIRST occurrence
of `c`, dropping the separator; if `c` does not occur, the whole string is the
first component and the second is empty. -/
def cutFirst (c : Char) (s : String) : String × String :=
  (⟨s.data.takeWhile (fun x => x != c)⟩, ⟨(s.data.dropWhile (fun x => x != c)).tail⟩)

/-- Model of Go `split(s, c, false)` from net/url: cut at the FIRST occurrence
of `c`, keeping the separator at the head of the second component. -/
def spanUntil (c : Char) (s : String) : String × String :=
  (⟨s.data.takeWhile (fun x => x != c)⟩, ⟨s.data.dropWhile (fun x => x != c)⟩)

/-- Model of the fragment strip in `normaliseUrl`:
`i := strings.LastIndex(urlString, "#"); if i >= 0 { urlString = urlString[:i] }`.
Everything from the LAST `'#'` on is removed; a string with no `'#'` is kept. -/
def stripAfterLastHash (s : String) : String :=
  if '#' ∈ s.data then ⟨((s.data.reverse.dropWhile (fun c => c != '#')).tail).reverse⟩
  else s

/-- Model of the userinfo strip in net/url `parseAuthority`: the host is the
part of the authority after the LAST `'@'` (userinfo before it is dropped;
its validation is not modelled). -/
def afterLastAt (s : String) : String :=
  if '@' ∈ s.data then ⟨(s.data.reverse.takeWhile (fun c => c != '@')).reverse⟩
  else s

/-- Model of `base[:strings.LastIndex(base, "/")+1]` in net/url `resolvePath`:
the prefix of `base` up to and including the last `'/'`, empty if `base` has
no `'/'`. -/
def upToLastSlash (s : String) : String :=
  if '/' ∈ s.data then ⟨(s.data.reverse.dropWhile (fun c => c != '/')).reverse⟩
  else ""

/-- Model of the external net/url collaborator's `url.URL` value (spec §4.1).
The `User`, `ForceQuery`, `RawPath`/`RawFragment` fields and percent-escaping
are not modelled: the pipeline under verification never constructs or reads
them. -/
structure URL where
  scheme : String
  opaq : String
  host : String
  path : String
  rawQuery : String
  fragment : String
deriving DecidableEq, Repr

/-- Model of net/url `getscheme`: scan for an ASCII-alpha-led run of
scheme characters terminated by `':'`.  Returns the scheme and the remainder;
`none` is the "missing protocol scheme" error; a string without a valid scheme
prefix is returned whole with an empty scheme. -/
def getschemeGo : List Char → List Char → List Char → Option (List Char × List Char)
  | [], _, orig => some ([], orig)
  | c :: rest, acc, orig =>
    if c.isAlpha then getschemeGo rest (acc ++ [c]) orig
    else if c.isDigit || c == '+' || c == '-' || c == '.' then
      (if acc = [] then some ([], orig) else getschemeGo rest (acc ++ [c]) orig)
    else if c == ':' then
      (if acc = [] then none else some (acc, rest))
    else some ([], orig)

/-- String-level wrapper of `getschemeGo`. -/
def getscheme (s : String) : Option (String × String) :=
  match getschemeGo s.data [] s.data with
  | none => none
  | some (sc, rest) => some (⟨sc⟩, ⟨rest⟩)

/-- Model of net/url `parseHost` restricted to the bracket check: a host that
starts with `'['` but has no closing `']'` is the "missing ']' in host" error
(so `"http://["` fails to parse, as the spec requires).  Port validation and
unescaping are not modelled. -/
def parseHost (host : String) : Option String :=
  if beginsWith host.data ['['] then
    (if ']' ∈ host.data then some host else none)
  else some host

/-- Model of net/url `parseAuthority`: drop the userinfo before the last
`'@'` and validate the host. -/
def parseAuthority (authority : String) : Option String :=
  parseHost (afterLastAt authority)

/-- Model of net/url `parse(rawurl, viaRequest := false)`: split off the
scheme, then the query at the first `'?'`; a rootless remainder with a scheme
is opaque; a rootless remainder whose first path segment contains `':'` is an
error; a `"//"`-led remainder is split into authority and path; otherwise the
remainder is the path. -/
def parseAfterScheme (sc rest q : String) : Option URL :=
  if ¬ beginsWith rest.data ['/'] ∧ sc ≠ "" then
    some { scheme := sc, opaq := rest, host := "", path := "", rawQuery := q, fragment := "" }
  else if ¬ beginsWith rest.data ['/'] ∧ ':' ∈ rest.data.takeWhile (fun c => c != '/') then
    none
  else if (sc ≠ "" ∨ ¬ beginsWith rest.data ['/', '/', '/']) ∧ beginsWith rest.data ['/', '/'] then
    match parseAuthority (spanUntil '/' ⟨rest.data.drop 2⟩).1 with
    | none => none
    | some h =>
      some { scheme := sc, opaq := "", host := h, path := (spanUntil '/' ⟨rest.data.drop 2⟩).2, rawQuery := q, fragment := "" }
  else
    some { scheme := sc, opaq := "", host := "", path := rest, rawQuery := q, fragment := "" }

/-- Continuation of `parseInternal` after the scheme and query are split off
(Go locals `rest` and `url.RawQuery`). -/
def parseInternal (rawurl : String) : Option URL :=
  if rawurl = "*" then
    some { scheme := "", opaq := "", host := "", path := "*", rawQuery := "", fragment := "" }
  else
    match getscheme rawurl with
    | none => none
    | some scr => parseAfterScheme (lowerStr scr.1) (cutFirst '?' scr.2).1 (cutFirst '?' scr.2).2

/-- Model of net/url `url.Parse`: split the fragment at the FIRST `'#'`,
parse the rest, then attach the fragment. -/
def urlParse (rawurl : String) : Option URL :=
  match parseInternal (cutFirst '#' rawurl).1 with
  | none => none
  | some url =>
    if (cutFirst '#' rawurl).2 = "" then some url
    else some { url with fragment := (cutFirst '#' rawurl).2 }

/-- Model of net/url `resolvePath`: merge `ref` onto `base` and remove dot
segments (RFC 3986 §5.3); rendered with the split/fold/join formulation of the
net/url source. -/
def resolvePath (base ref : String) : String :=
  let full : List Char :=
    if ref = "" then base.data
    else if ¬ beginsWith ref.data ['/'] then (upToLastSlash base).data ++ ref.data
    else ref.data
  if full = [] then ""
  else
    let src := full.splitOn '/'
    let dst := src.foldl (fun dst elem =>
      if elem = ['.'] then dst
      else if elem = ['.', '.'] then dst.dropLast
      else dst ++ [elem]) ([] : List (List Char))
    let dst := match src.getLast? with
      | some e => if e = ['.'] ∨ e = ['.', '.'] then dst ++ [[]] else dst
      | none => dst
    ⟨'/' :: ((dst.intersperse ['/']).flatten.dropWhile (fun c => c == '/'))⟩

/-- Model of net/url `(*URL).ResolveReference` (RFC 3986 §5, spec §4.1): an
absolute or authority-carrying reference stands alone (with its path cleaned);
an opaq-style reference takes only the base scheme; an empty path-and-query
reference inherits the base query (and the base fragment when it has none);
otherwise scheme, host and merged path come from the base. -/
def resolveReference (u ref : URL) : URL :=
  let sch := if ref.scheme = "" then u.scheme else ref.scheme
  if ref.scheme ≠ "" ∨ ref.host ≠ "" then
    { ref with scheme := sch, path := resolvePath ref.path "" }
  else if ref.opaq ≠ "" then
    { ref with scheme := sch, host := "", path := "" }
  else if ref.path = "" ∧ ref.rawQuery = "" then
    { ref with
        scheme := sch,
        host := u.host,
        path := resolvePath u.path "",
        rawQuery := u.rawQuery,
        fragment := if ref.fragment = "" then u.fragment else ref.fragment }
  else
    { ref with scheme := sch, host := u.host, path := resolvePath u.path ref.path }

/-- Model of net/url `(*URL).String()`, the canonical string form used as the
deduplication key (escaping and userinfo are not modelled). -/
def urlStr (u : URL) : String :=
  (if u.scheme ≠ "" then u.scheme ++ ":" else "")
    ++ (if u.opaq ≠ "" then u.opaq
        else (if u.scheme ≠ "" ∨ u.host ≠ "" then "//" ++ u.host else "")
          ++ (if u.path ≠ "" ∧ ¬ beginsWith u.path.data ['/'] ∧ u.host ≠ "" then "/" else "")
          ++ u.path)
    ++ (if u.rawQuery ≠ "" then "?" ++ u.rawQuery else "")
    ++ (if u.fragment ≠ "" then "#" ++ u.fragment else "")

/-- Embedding of `HttpFetcher.normaliseUrl` (src/unnamed/part_000:181-200):
strip from the last `'#'`, parse, return `nil` (`none`) on parse failure,
otherwise resolve against the parent. -/
def normaliseUrl (parent : URL) (urlString : String) : Option URL :=
  match urlParse (stripAfterLastHash urlString) with
  | none => none
  | some uri => some (resolveReference parent uri)

/-- Embedding of the loop of `HttpFetcher.dedupeUrls` with its `seen` set
(`map[string]bool`, keyed by `u.String()`) made explicit. -/
def dedupeGo (seen : List String) : List URL → List URL
  | [] => []
  | u :: rest =>
    if urlStr u ∈ seen then dedupeGo seen rest
    else u :: dedupeGo (urlStr u :: seen) rest

/-- Embedding of `HttpFetcher.dedupeUrls` (src/unnamed/part_000:202-216). -/
def dedupeUrls (original : List URL) : List URL := dedupeGo [] original

/-- Model of `html.NodeType` from the parsing collaborator. -/
inductive NodeType
  | errorNode
  | textNode
  | documentNode
  | elementNode
  | commentNode
  | doctypeNode
deriving DecidableEq, Repr

/-- Model of `html.Attribute`: one key/value pair of a node's ordered
attribute list. -/
structure GoAttribute where
  key : String
  val : String
deriving DecidableEq, Repr

/-- Model of `html.Node` as the extractors read it: kind, tag identity
(`DataAtom`, with the anchor atom rendered as `"a"`), and the ordered
attribute list. -/
structure HtmlNode where
  type : NodeType
  dataAtom : String
  attr : List GoAttribute
deriving DecidableEq, Repr

/-- Model of `goquery.Document` as the extractors read it: the origin URL
(`doc.Url`; taken non-nil, as `goquery.NewDocument` always sets it) and the
tag-query facility (`doc.Find`), whose result is a possibly-nil selection
(`none`) holding possibly-nil nodes. -/
structure GoqueryDocument where
  url : URL
  find : String → Option (List (Option HtmlNode))

/-- Error values of src/unnamed/part_000:14-17. -/
inductive FetchError
  | invalidNode
  | invalidNodeAttributeMissing
deriving DecidableEq, Repr

/-- Embedding of `HttpFetcher.extractValidHref` (src/unnamed/part_000:162-178):
an anchor element's first `href` attribute with a non-empty value, or the
error consumed by the caller. -/
def extractValidHref (n : Option HtmlNode) : Except FetchError String :=
  match n with
  | none => Except.error FetchError.invalidNode
  | some node =>
    if node.type = NodeType.elementNode ∧ node.dataAtom = "a" then
      match node.attr.find? (fun a => a.key == "href" && a.val != "") with
      | some a => Except.ok a.val
      | none => Except.error FetchError.invalidNodeAttributeMissing
    else Except.error FetchError.invalidNode

/-- Embedding of the per-node body of the `extractLinks` loop
(src/unnamed/part_000:65-77): skip on error or empty href, else normalise;
a `none` result is a skipped node, so the loop's appends are a `filterMap`. -/
def linkCandidate (base : URL) (n : Option HtmlNode) : Option URL :=
  match extractValidHref n with
  | Except.error _ => none
  | Except.ok href => if href = "" then none else normaliseUrl base href

/-- Embedding of `HttpFetcher.extractLinks` (src/unnamed/part_000:52-80) on a
possibly-nil document.  A nil document (`none`) dereferences nil in
`doc.Find` — embedded as `none`; a nil selection is tolerated (`return nil`). -/
def fetcherExtractLinks (doc : Option GoqueryDocument) : Option (List URL) :=
  match doc with
  | none => none
  | some d =>
    match d.find ("a") with
    | none => some []
    | some nodes => some (dedupeUrls (nodes.filterMap (linkCandidate d.url)))

/-- Embedding of the per-node body of the img/script passes of
`extractAssets` (src/unnamed/part_000:89-121): scan the attribute list; a
non-empty `src` value that normalises is appended and the loop `break`s, a
non-empty `src` value that fails to normalise is passed over and the scan
continues. -/
def imgScriptAsset (base : URL) (n : Option HtmlNode) : Option URL :=
  match n with
  | none => none
  | some node =>
    node.attr.findSome? (fun a =>
      if a.key == "src" && a.val != "" then normaliseUrl base a.val else none)

/-- Embedding of the forward pass over a `"link"` node's attributes
(src/unnamed/part_000:133-143): the `switch` on the key overwrites the
collected `rel`, `linktype`, and normalised `href` on every occurrence. -/
def linkStep (base : URL) (st : String × String × Option URL) (a : GoAttribute) :
    String × String × Option URL :=
  if a.key = "rel" then (a.val, st.2.1, st.2.2)
  else if a.key = "type" then (st.1, a.val, st.2.2)
  else if a.key = "href" then (st.1, st.2.1, normaliseUrl base a.val)
  else st

/-- Embedding of the per-node body of the `"link"` pass of `extractAssets`
(src/unnamed/part_000:124-156): collect `rel`/`type`/normalised `href` by a
forward pass, skip if there is no link target, then select the two accepted
`rel`/`type` combinations. -/
def linkNodeAsset (base : URL) (n : Option HtmlNode) : Option URL :=
  match n with
  | none => none
  | some node =>
    let st := node.attr.foldl (linkStep base) ("", "", none)
    match st.2.2 with
    | none => none
    | some uri =>
      if st.1 = "stylesheet" ∧ st.2.1 = "text/css" then some uri
      else if st.1 = "shortcut icon" then some uri
      else none

/-- Embedding of `HttpFetcher.extractAssets` (src/unnamed/part_000:84-159) on
a possibly-nil document.  A nil document dereferences nil in `doc.Find`, and —
unlike `extractLinks` — the three passes range over `sel.Nodes` without a nil
check on the selection, so a nil query result also dereferences nil; both are
embedded as `none`. -/
def fetcherExtractAssets (doc : Option GoqueryDocument) : Option (List URL) :=
  match doc with
  | none => none
  | some d =>
    match d.find ("img") with
    | none => none
    | some imgs =>
      match d.find ("script") with
      | none => none
      | some scripts =>
        match d.find ("link") with
        | none => none
        | some links =>
          some (dedupeUrls
            (imgs.filterMap (imgScriptAsset d.url)
              ++ scripts.filterMap (imgScriptAsset d.url)
              ++ links.filterMap (linkNodeAsset d.url)))

/-- Embedding of the href-collecting loop of main.go's `extractLinks`
(src/main.go:70-75): a forward pass in which every `href` occurrence
overwrites the collected value, starting from the zero value `""`. -/
def lastKeyVal (k d : String) (attrs : List GoAttribute) : String :=
  attrs.foldl (fun h a => if a.key = k then a.val else h) d

/-- Embedding of the standalone `extractLinks` of main.go (src/main.go:50-87)
on a possibly-nil document: a nil selection yields no links; each anchor
element contributes the value left by the href loop unless it is empty; the
raw strings are returned with no normalisation and no deduplication.  The
loop reads `n.Type` without a nil check, so a nil node in the selection
dereferences nil — embedded as `none`, as is a nil document. -/
def mainExtractLinks (doc : Option GoqueryDocument) : Option (List String) :=
  match doc with
  | none => none
  | some d =>
    match d.find ("a") with
    | none => some []
    | some nodes =>
      if nodes.all (fun n => n.isSome) then
        some ((nodes.filterMap id).filterMap (fun node =>
          if node.type = NodeType.elementNode ∧ node.dataAtom = "a" then
            (let href := lastKeyVal ("href") ("") node.attr
             if href = "" then none else some href)
          else none))
      else none

/-! Spec-side definitions: these follow the words of the specification and
are compared with the embedded code above. -/

/-- Spec-side deduplication: keep each canonical string at the position of
its first occurrence and remove every later duplicate (spec §4.2:
"deduplicated by canonical string form, preserving first-seen order"). -/
def specDedup : List String → List String
  | [] => []
  | s :: rest => s :: specDedup (rest.filter (fun t => t != s))
termination_by l => l.length
decreasing_by
  simp only [List.length_cons]
  exact Nat.lt_succ_of_le (List.length_filter_le _ _)

/-- Spec-side "last value for key" lookup (spec §9: ordered mapping with a
"last value for key" helper; §4.2: "last-wins if an attribute key repeats"). -/
def lastAttrVal (k : String) (attrs : List GoAttribute) : Option String :=
  (attrs.reverse.find? (fun a => a.key == k)).map (fun a => a.val)

/-- Spec-side anchor rule (spec §4.2): a node qualifies only if its kind is
element and its tag is exactly the anchor tag; the value is the FIRST `href`
attribute with a non-empty value; otherwise the node is skipped via the
internal error signals. -/
def validHrefSpec (n : Option HtmlNode) : Except FetchError String :=
  match n with
  | none => Except.error FetchError.invalidNode
  | some node =>
    if node.type = NodeType.elementNode ∧ node.dataAtom = "a" then
      match (node.attr.filter (fun a => a.key == "href" && a.val != "")).head? with
      | some a => Except.ok a.val
      | none => Except.error FetchError.invalidNodeAttributeMissing
    else Except.error FetchError.invalidNode

/-- Spec-side per-anchor candidate: the qualifying value normalised, with
failures of either step dropping the node. -/
def specLinkCandidate (base : URL) (n : Option HtmlNode) : Option URL :=
  match validHrefSpec n with
  | Except.error _ => none
  | Except.ok v => normaliseUrl base v

/-- Spec-side img/script rule, amended to the code's behaviour: the candidate
kept for a node is the first non-empty `src` value whose normalisation
succeeds. -/
def imgScriptSpec (base : URL) (node : HtmlNode) : Option URL :=
  ((node.attr.filter (fun a => a.key == "src" && a.val != "")).filterMap
    (fun a => normaliseUrl base a.val)).head?

/-- Spec-side `"link"` rule (spec §4.2): collect `rel`, `type` and `href`
with last-wins semantics; the node yields a candidate only if `href` is
present (and normalises) and one of the two accepted combinations holds. -/
def linkAssetSpec (base : URL) (node : HtmlNode) : Option URL :=
  match lastAttrVal ("href") node.attr with
  | none => none
  | some hv =>
    match normaliseUrl base hv with
    | none => none
    | some uri =>
      if (lastAttrVal ("rel") node.attr).getD "" = "stylesheet"
          ∧ (lastAttrVal ("type") node.attr).getD "" = "text/css" then some uri
      else if (lastAttrVal ("rel") node.attr).getD "" = "shortcut icon" then some uri
      else none

/-- Helper mirroring the href component of the `"link"` pass: a forward fold
that renormalises on every `href` occurrence, keeping the last result. -/
def lastHrefNorm (base : URL) (u0 : Option URL) (attrs : List GoAttribute) : Option URL :=
  attrs.foldl (fun h a => if a.key = "href" then normaliseUrl base a.val else h) u0

/-! Helper lemmas. -/

theorem dropWhile_append_of_forall {α} {p : α → Bool} {l1 l2 : List α}
    (h : ∀ c ∈ l1, p c = true) : (l1 ++ l2).dropWhile p = l2.dropWhile p := by
  induction l1 with
  | nil => rfl
  | cons a l ih =>
    simp only [List.cons_append, List.dropWhile_cons, h a (List.mem_cons_self a l)]
    exact ih (fun c hc => h c (List.mem_cons_of_mem a hc))

theorem data_append (s t : String) : (s ++ t).data = s.data ++ t.data := rfl

/-- The fragment strip removes exactly the part from the LAST `'#'` on. -/
theorem stripAfterLastHash_concat (sl tl : List Char) (h : '#' ∉ tl) :
    stripAfterLastHash ⟨sl ++ '#' :: tl⟩ = ⟨sl⟩ := by
  have hmem : '#' ∈ sl ++ '#' :: tl := List.mem_append_right _ (List.mem_cons_self _ _)
  unfold stripAfterLastHash
  rw [if_pos hmem]
  have hrev : (sl ++ '#' :: tl).reverse = tl.reverse ++ '#' :: sl.reverse := by
    simp [List.reverse_append]
  rw [hrev, dropWhile_append_of_forall (fun c hc => ?_)]
  · simp [List.dropWhile_cons]
  · have : c ≠ '#' := fun hji => h (hji ▸ List.mem_reverse.mp hc)
    exact bne_iff_ne.mpr this

theorem stripAfterLastHash_of_not_mem {s : String} (h : '#' ∉ s.data) :
    stripAfterLastHash s = s := by
  unfold stripAfterLastHash
  rw [if_neg h]

theorem mem_specDedup (m : List String) (t : String) (h : t ∈ specDedup m) : t ∈ m := by
  match m with
  | [] => simp [specDedup] at h
  | s :: rest =>
    rw [specDedup] at h
    rcases List.mem_cons.mp h with h | h
    · exact h ▸ List.mem_cons_self _ _
    · exact List.mem_cons_of_mem _
        (List.mem_of_mem_filter (mem_specDedup (rest.filter (fun t => t != s)) t h))
termination_by m.length
decreasing_by
  simp only [List.length_cons]
  exact Nat.lt_succ_of_le (List.length_filter_le _ _)

theorem specDedup_nodup (m : List String) : (specDedup m).Nodup := by
  match m with
  | [] => simp [specDedup]
  | s :: rest =>
    rw [specDedup]
    refine List.nodup_cons.mpr ⟨fun hmem => ?_, specDedup_nodup _⟩
    have := List.of_mem_filter (mem_specDedup _ _ hmem)
    simp at this
termination_by m.length
decreasing_by
  simp only [List.length_cons]
  exact Nat.lt_succ_of_le (List.length_filter_le _ _)

theorem specDedup_cons (s : String) (rest : List String) :
    specDedup (s :: rest) = s :: specDedup (rest.filter (fun t => t != s)) := by
  rw [specDedup]

theorem dedupeGo_map (l : List URL) : ∀ (seen : List String),
    (dedupeGo seen l).map urlStr
      = specDedup ((l.map urlStr).filter (fun t => !(seen.contains t))) := by
  induction l with
  | nil => intro seen; simp [dedupeGo, specDedup]
  | cons u rest ih =>
    intro seen
    by_cases h : urlStr u ∈ seen
    · rw [dedupeGo, if_pos h]
      have hc : (seen.contains (urlStr u)) = true := by
        simpa using h
      simp only [List.map_cons, List.filter_cons, hc, Bool.not_true]
      exact ih seen
    · rw [dedupeGo, if_neg h]
      have hc : (seen.contains (urlStr u)) = false := by
        simpa using h
      simp only [List.map_cons, List.filter_cons, hc, Bool.not_false, if_true]
      rw [specDedup_cons, ih (urlStr u :: seen)]
      rw [List.filter_filter]
      refine congrArg _ (congrArg specDedup (List.filter_congr (fun t ht => ?_)))
      simp only [List.contains_cons, Bool.not_or, Bool.and_comm]
      by_cases hd : t = urlStr u <;> simp [hd, bne]

theorem dedupeUrls_map (l : List URL) :
    (dedupeUrls l).map urlStr = specDedup (l.map urlStr) := by
  have := dedupeGo_map l []
  simpa [dedupeUrls] using this

theorem dedupeUrls_nodup (l : List URL) : ((dedupeUrls l).map urlStr).Nodup := by
  rw [dedupeUrls_map]
  exact specDedup_nodup _

theorem find?_eq_head?_filter {α} (p : α → Bool) (l : List α) :
    l.find? p = (l.filter p).head? := by
  induction l with
  | nil => rfl
  | cons a l ih =>
    cases h : p a
    · rw [List.find?_cons_of_neg _ (by simp [h]), List.filter_cons_of_neg (by simp [h])]
      exact ih
    · rw [List.find?_cons_of_pos _ h, List.filter_cons_of_pos h]
      rfl

theorem findSome?_guard_eq {α β} (p : α → Bool) (g : α → Option β) (l : List α) :
    (l.findSome? fun a => if p a then g a else none)
      = ((l.filter p).filterMap g).head? := by
  induction l with
  | nil => rfl
  | cons a l ih =>
    by_cases h : p a
    · simp only [List.findSome?_cons, h, if_true, List.filter_cons, List.filterMap_cons]
      cases hg : g a <;> simp [hg, ih]
    · simp [List.findSome?_cons, h, List.filter_cons, ih]

theorem foldl_linkStep (base : URL) (attrs : List GoAttribute) :
    ∀ (r t : String) (u : Option URL),
      attrs.foldl (linkStep base) (r, t, u)
        = (lastKeyVal ("rel") r attrs, lastKeyVal ("type") t attrs,
            lastHrefNorm base u attrs) := by
  induction attrs with
  | nil => intro r t u; rfl
  | cons a l ih =>
    intro r t u
    simp only [List.foldl_cons, lastKeyVal, lastHrefNorm] at *
    by_cases h1 : a.key = "rel"
    · simp [linkStep, h1, ih]
    · by_cases h2 : a.key = "type"
      · simp [linkStep, h1, h2, ih]
      · by_cases h3 : a.key = "href"
        · simp [linkStep, h1, h2, h3, ih]
        · simp [linkStep, h1, h2, h3, ih]

theorem lastKeyVal_eq_lastAttrVal (k d : String) (attrs : List GoAttribute) :
    lastKeyVal k d attrs = (lastAttrVal k attrs).getD d := by
  induction attrs using List.reverseRecOn with
  | nil => rfl
  | append_singleton l a ih =>
    by_cases h : a.key = k
    · simp [lastKeyVal, List.foldl_append, lastAttrVal, List.reverse_append, h]
    · simp only [lastKeyVal, List.foldl_append, List.foldl_cons, List.foldl_nil, if_neg h]
      rw [show (l.foldl (fun h a => if a.key = k then a.val else h) d) = lastKeyVal k d l from rfl,
        ih]
      simp [lastAttrVal, List.reverse_append, List.find?_cons, h]

theorem lastHrefNorm_eq (base : URL) (u0 : Option URL) (attrs : List GoAttribute) :
    lastHrefNorm base u0 attrs
      = match lastAttrVal ("href") attrs with
        | none => u0
        | some v => normaliseUrl base v := by
  induction attrs using List.reverseRecOn with
  | nil => rfl
  | append_singleton l a ih =>
    by_cases h : a.key = "href"
    · simp [lastHrefNorm, List.foldl_append, lastAttrVal, List.reverse_append, h]
    · simp only [lastHrefNorm, List.foldl_append, List.foldl_cons, List.foldl_nil, if_neg h]
      rw [show (l.foldl (fun h a => if a.key = "href" then normaliseUrl base a.val else h) u0)
          = lastHrefNorm base u0 l from rfl, ih]
      simp [lastAttrVal, List.reverse_append, List.find?_cons, h]

theorem resolveReference_scheme (u ref : URL) :
    (resolveReference u ref).scheme = if ref.scheme = "" then u.scheme else ref.scheme := by
  unfold resolveReference
  split_ifs <;> rfl

theorem parseAfterScheme_scheme_empty_opaq {sc rest q : String} {u : URL}
    (h : parseAfterScheme sc rest q = some u) (hs : u.scheme = "") : u.opaq = "" := by
  unfold parseAfterScheme at h
  split_ifs at h with h1 h2 h3
  · obtain rfl := Option.some_inj.mp h
    exact absurd hs h1.2
  · split at h
    · exact Option.noConfusion h
    · obtain rfl := Option.some_inj.mp h
      rfl
  · obtain rfl := Option.some_inj.mp h
    rfl

theorem parseInternal_scheme_empty_opaq {s : String} {u : URL}
    (h : parseInternal s = some u) (hs : u.scheme = "") : u.opaq = "" := by
  unfold parseInternal at h
  split at h
  · obtain rfl := Option.some_inj.mp h
    rfl
  · split at h
    · simp at h
    · exact parseAfterScheme_scheme_empty_opaq h hs

theorem urlParse_scheme_empty_opaq {s : String} {u : URL}
    (h : urlParse s = some u) (hs : u.scheme = "") : u.opaq = "" := by
  simp only [urlParse] at h
  split at h
  · simp at h
  · rename_i url hurl
    split at h
    · obtain rfl := Option.some_inj.mp h
      exact parseInternal_scheme_empty_opaq hurl hs
    · obtain rfl := Option.some_inj.mp h
      have hs2 : url.scheme = "" := hs
      have ho : url.opaq = "" := parseInternal_scheme_empty_opaq hurl hs2
      exact ho

/-! Concrete fixtures used in counterexamples and witnesses. -/

/-- A concrete origin URL, `http://example.com/`. -/
def baseEx : URL :=
  { scheme := "http", opaq := "", host := "example.com", path := "/", rawQuery := "", fragment := "" }

/-- A concrete origin URL with a directory path, `http://example.com/dir/`. -/
def baseDir : URL :=
  { scheme := "http", opaq := "", host := "example.com", path := "/dir/", rawQuery := "", fragment := "" }

/-- An anchor element with a single href attribute. -/
def anchorNode (h : String) : HtmlNode :=
  { type := NodeType.elementNode, dataAtom := "a", attr := [{ key := "href", val := h }] }

/-- A document whose every tag query returns an empty selection. -/
def emptyDoc : GoqueryDocument := ⟨baseEx, fun _ => some []⟩

/-- An img element whose first non-empty `src` is unparseable and whose second
`src` is fine. -/
def c3Node : HtmlNode :=
  ⟨NodeType.elementNode, "img", [⟨"src", "http://["⟩, ⟨"src", "x.png"⟩]⟩

/-! Claim theorems. -/

/-- Claim C1, counterexample: the claim asserts that for every valid absolute
URL string `s`, `normalize(base, s ++ "#frag")` and `normalize(base, s)` agree
because the raw string is truncated at the first `'#'`.  For the valid
absolute URL string `s = "http://a/b#c"` the two results differ: the code
truncates at the LAST `'#'`, so the left side keeps the original fragment
`c` while the right side drops it. -/
theorem c1_counterexample :
    normaliseUrl baseEx ("http://a/b#c" ++ "#frag") ≠ normaliseUrl baseEx ("http://a/b#c") := by
  decide

/-- Claim C1, amended: the normaliser truncates the raw attribute string at
the LAST `'#'` character before parsing (second conjunct), so for every
string `s` that contains no `'#'` — in particular every fragment-free valid
absolute URL string — and every base, `normalize(base, s ++ "#frag")` and
`normalize(base, s)` produce the same result (first conjunct). -/
theorem c1_fragment_strip_amended :
    (∀ (b : URL) (s : String), '#' ∉ s.data →
        normaliseUrl b (s ++ "#frag") = normaliseUrl b s)
    ∧ (∀ (s t : String), '#' ∉ t.data →
        stripAfterLastHash (s ++ "#" ++ t) = s) := by
  constructor
  · intro b s hs
    unfold normaliseUrl
    rw [show s ++ "#frag" = (⟨s.data ++ '#' :: ("frag").data⟩ : String) from rfl]
    rw [stripAfterLastHash_concat s.data ("frag").data (by decide),
      stripAfterLastHash_of_not_mem hs]
  · intro s t ht
    have hl : (s.data ++ ['#']) ++ t.data = s.data ++ '#' :: t.data := by
      rw [List.append_assoc]
      rfl
    rw [show s ++ "#" ++ t = (⟨s.data ++ '#' :: t.data⟩ : String) from congrArg String.mk hl]
    exact stripAfterLastHash_concat s.data t.data ht

/-- Witness for the amended claim C1 at concrete inputs. -/
theorem c1_fragment_strip_amended_witness :
    normaliseUrl baseEx ("http://a/b" ++ "#frag") = normaliseUrl baseEx ("http://a/b")
    ∧ stripAfterLastHash ("http://a/b#c" ++ "#" ++ "frag") = "http://a/b#c" :=
  ⟨c1_fragment_strip_amended.1 baseEx ("http://a/b") (by decide),
   c1_fragment_strip_amended.2 ("http://a/b#c") ("frag") (by decide)⟩

/-- Claim C2, counterexample: handed a nil document, neither extractor
returns empty results — both dereference nil in `doc.Find` (a panic, embedded
as `none`), contradicting "returns empty results rather than failing when
handed a degenerate document". -/
theorem c2_counterexample :
    fetcherExtractLinks none = none ∧ fetcherExtractLinks none ≠ some []
    ∧ fetcherExtractAssets none = none ∧ fetcherExtractAssets none ≠ some [] := by
  refine ⟨rfl, by decide, rfl, by decide⟩

/-- Claim C2, amended: for every NON-nil document, `extractLinks` never
fails — a nil or empty anchor query yields the empty links sequence — and
`extractAssets` never fails provided each of its three tag queries yields a
node list, with empty lists yielding the empty assets sequence.  (A nil
document, or for `extractAssets` a nil tag-query result, dereferences nil
instead of returning empty results; see the counterexample.) -/
theorem c2_extract_total :
    ∀ (d : GoqueryDocument) (i sc k : List (Option HtmlNode)),
      ((fetcherExtractLinks (some d)).isSome = true)
      ∧ (d.find ("a") = none → fetcherExtractLinks (some d) = some [])
      ∧ (d.find ("a") = some [] → fetcherExtractLinks (some d) = some [])
      ∧ (d.find ("img") = some i → d.find ("script") = some sc → d.find ("link") = some k →
          (fetcherExtractAssets (some d)).isSome = true)
      ∧ (d.find ("img") = some [] → d.find ("script") = some [] → d.find ("link") = some [] →
          fetcherExtractAssets (some d) = some []) := by
  intro d i sc k
  refine ⟨?_, ?_, ?_, ?_, ?_⟩
  · simp only [fetcherExtractLinks]
    cases hfa : d.find ("a") <;> rfl
  · intro h
    simp only [fetcherExtractLinks]
    rw [h]
  · intro h
    simp only [fetcherExtractLinks]
    rw [h]
    rfl
  · intro h1 h2 h3
    simp only [fetcherExtractAssets]
    rw [h1, h2, h3]
    rfl
  · intro h1 h2 h3
    simp only [fetcherExtractAssets]
    rw [h1, h2, h3]
    rfl

/-- Witness for the amended claim C2: a document whose queries all return
empty selections yields empty links and assets. -/
theorem c2_extract_total_witness :
    fetcherExtractLinks (some emptyDoc) = some [] ∧ fetcherExtractAssets (some emptyDoc) = some [] :=
  ⟨(c2_extract_total emptyDoc [] [] []).2.2.1 rfl,
   (c2_extract_total emptyDoc [] [] []).2.2.2.2 rfl rfl rfl⟩

/-- Claim C3, counterexample: for an img node whose FIRST non-empty `src`
value (`"http://["`) is unparseable but whose second one is fine, the node
still contributes an asset — the loop only `break`s when normalisation
succeeds, so the claim's "contributes none when its first non-empty src
value is unparseable" is false. -/
theorem c3_counterexample :
    ((c3Node.attr.filter (fun a => a.key == "src" && a.val != "")).head?).map (fun a => a.val)
        = some ("http://[")
    ∧ normaliseUrl baseEx ("http://[") = none
    ∧ imgScriptAsset baseEx (some c3Node) ≠ none := by
  refine ⟨by decide, by decide, by decide⟩

/-- Claim C3, amended: each img or script node contributes at most one asset,
namely the first non-empty `src` attribute value whose normalisation
SUCCEEDS; a failing non-empty `src` is silently passed over and the scan
continues with later `src` attributes, so a node contributes none exactly
when every non-empty `src` value is unparseable. -/
theorem c3_first_successful_src :
    ∀ (base : URL) (node : HtmlNode),
      imgScriptAsset base (some node) = imgScriptSpec base node := by
  intro base node
  unfold imgScriptAsset imgScriptSpec
  exact findSome?_guard_eq _ _ _

/-- Claim C7, confirmed: whenever the fragment-truncated form of the raw
string fails to parse, `normaliseUrl` returns `none`; no error reaches the
caller (the function is total into `Option`). -/
theorem c7_unparseable_none :
    ∀ (parent : URL) (s : String),
      urlParse (stripAfterLastHash s) = none → normaliseUrl parent s = none := by
  intro parent s h
  unfold normaliseUrl
  rw [h]

/-- Witness for claim C7 at the spec's own example `"http://["`. -/
theorem c7_unparseable_none_witness :
    urlParse (stripAfterLastHash ("http://[")) = none
    ∧ normaliseUrl baseEx ("http://[") = none :=
  ⟨by decide, c7_unparseable_none baseEx ("http://[") (by decide)⟩

theorem mem_of_head?_eq_some {α} {l : List α} {a : α} (h : l.head? = some a) : a ∈ l := by
  cases l with
  | nil => exact Option.noConfusion h
  | cons b t =>
    obtain rfl := Option.some_inj.mp h
    exact List.mem_cons_self _ _

theorem validHrefSpec_ok_ne_empty {n : Option HtmlNode} {v : String}
    (h : validHrefSpec n = Except.ok v) : v ≠ "" := by
  unfold validHrefSpec at h
  split at h
  · exact Except.noConfusion h
  · split at h
    · split at h
      · rename_i node _ a ha
        obtain rfl : a.val = v := by injection h
        have hmem := mem_of_head?_eq_some ha
        have hp := List.of_mem_filter hmem
        have : (a.val != "") = true := by
          simpa using (Bool.and_elim_right hp)
        simpa using this
      · exact Except.noConfusion h
    · exact Except.noConfusion h

/-- Nodes of the C4 witness document: a good anchor, a nil node, a text node,
an anchor with only an empty href, and an anchor with no href. -/
def c4Nodes : List (Option HtmlNode) :=
  [some (anchorNode ("/a")), none,
   some ⟨NodeType.textNode, "", []⟩,
   some ⟨NodeType.elementNode, "a", [⟨"href", ""⟩]⟩,
   some ⟨NodeType.elementNode, "a", [⟨"rel", "x"⟩]⟩]

/-- The C4 witness document. -/
def c4Doc : GoqueryDocument := ⟨baseEx, fun t => if t = "a" then some c4Nodes else some []⟩

/-- Claim C4, confirmed: a queried node contributes a link candidate only if
it is a non-nil element node whose tag is exactly the anchor atom, the
candidate value is the FIRST `href` attribute with a non-empty value
(`extractValidHref` equals its spec-side form, first conjunct), and nodes
failing the rule are skipped without affecting the rest — the whole
extraction is the per-node rule filter-mapped over the query result and then
deduplicated (second conjunct). -/
theorem c4_anchor_href_rule :
    (∀ n : Option HtmlNode, extractValidHref n = validHrefSpec n)
    ∧ (∀ (d : GoqueryDocument) (nodes : List (Option HtmlNode)),
        d.find ("a") = some nodes →
          fetcherExtractLinks (some d)
            = some (dedupeUrls (nodes.filterMap (specLinkCandidate d.url)))) := by
  have hpt : ∀ n, extractValidHref n = validHrefSpec n := by
    intro n
    cases n with
    | none => rfl
    | some node =>
      simp only [extractValidHref, validHrefSpec]
      rw [find?_eq_head?_filter]
  have hcand : ∀ (base : URL) (n : Option HtmlNode),
      linkCandidate base n = specLinkCandidate base n := by
    intro base n
    unfold linkCandidate specLinkCandidate
    rw [hpt]
    cases hv : validHrefSpec n with
    | error e => rfl
    | ok v =>
      have hne := validHrefSpec_ok_ne_empty hv
      simp [hne]
  refine ⟨hpt, ?_⟩
  intro d nodes h
  simp only [fetcherExtractLinks]
  rw [h, funext (hcand d.url)]

/-- Witness for claim C4 at the concrete document `c4Doc`. -/
theorem c4_anchor_href_rule_witness :
    fetcherExtractLinks (some c4Doc)
      = some (dedupeUrls (c4Nodes.filterMap (specLinkCandidate c4Doc.url))) :=
  c4_anchor_href_rule.2 c4Doc c4Nodes rfl

theorem linkNodeAsset_eq_spec (base : URL) (node : HtmlNode) :
    linkNodeAsset base (some node) = linkAssetSpec base node := by
  simp only [linkNodeAsset, linkAssetSpec]
  rw [foldl_linkStep, lastHrefNorm_eq, lastKeyVal_eq_lastAttrVal, lastKeyVal_eq_lastAttrVal]
  cases hh : lastAttrVal ("href") node.attr with
  | none => rfl
  | some hv => rfl

/-- Claim C5, confirmed: for every `"link"` node, `rel`, `type` and
(normalised) `href` are collected with last-wins semantics, and the node
yields an asset candidate exactly per the spec rule — only with an `href`
present (whose last value normalises) and rel `"stylesheet"` with type
`"text/css"`, or rel `"shortcut icon"`; any other rel yields no candidate. -/
theorem c5_link_rel_type_rule :
    ∀ (base : URL) (node : HtmlNode),
      linkNodeAsset base (some node) = linkAssetSpec base node :=
  fun base node => linkNodeAsset_eq_spec base node

/-- The undeduplicated normalised link pool of a document, given the anchor
query result. -/
def rawLinks (d : GoqueryDocument) (anchors : List (Option HtmlNode)) : List URL :=
  anchors.filterMap (linkCandidate d.url)

/-- The undeduplicated normalised asset pool of a document, given the three
tag query results in the order the source visits them. -/
def rawAssets (d : GoqueryDocument) (imgs scripts links : List (Option HtmlNode)) : List URL :=
  imgs.filterMap (imgScriptAsset d.url) ++ scripts.filterMap (imgScriptAsset d.url)
    ++ links.filterMap (linkNodeAsset d.url)

/-- Anchors of the C6 witness document: the spec §8 dedup scenario. -/
def c6Anchors : List (Option HtmlNode) :=
  [some (anchorNode ("/a")), some (anchorNode ("b")), some (anchorNode ("/a#x"))]

/-- The C6 witness document, base `http://example.com/dir/`. -/
def c6Doc : GoqueryDocument := ⟨baseDir, fun t => if t = "a" then some c6Anchors else some []⟩

/-- Claim C6, confirmed: both extraction results are the corresponding raw
pools deduplicated by canonical string form; the canonical strings of the
output are exactly the first-occurrence deduplication (`specDedup`) of the
canonical strings of the raw pool — each repeated URL is kept exactly once,
at the position of its first occurrence — and no canonical string appears
twice in either sequence. -/
theorem c6_dedupe_first_seen :
    ∀ (d : GoqueryDocument) (anchors imgs scripts links : List (Option HtmlNode)),
      (d.find ("a") = some anchors →
        fetcherExtractLinks (some d) = some (dedupeUrls (rawLinks d anchors))
        ∧ (dedupeUrls (rawLinks d anchors)).map urlStr
            = specDedup ((rawLinks d anchors).map urlStr)
        ∧ ((dedupeUrls (rawLinks d anchors)).map urlStr).Nodup)
      ∧ (d.find ("img") = some imgs → d.find ("script") = some scripts →
          d.find ("link") = some links →
          fetcherExtractAssets (some d) = some (dedupeUrls (rawAssets d imgs scripts links))
          ∧ (dedupeUrls (rawAssets d imgs scripts links)).map urlStr
              = specDedup ((rawAssets d imgs scripts links).map urlStr)
          ∧ ((dedupeUrls (rawAssets d imgs scripts links)).map urlStr).Nodup) := by
  intro d anchors imgs scripts links
  constructor
  · intro h
    refine ⟨?_, dedupeUrls_map _, dedupeUrls_nodup _⟩
    simp only [fetcherExtractLinks, rawLinks]
    rw [h]
  · intro h1 h2 h3
    refine ⟨?_, dedupeUrls_map _, dedupeUrls_nodup _⟩
    simp only [fetcherExtractAssets, rawAssets]
    rw [h1, h2, h3]

/-- Witness for claim C6 at the spec §8 scenario document. -/
theorem c6_dedupe_first_seen_witness :
    fetcherExtractLinks (some c6Doc) = some (dedupeUrls (rawLinks c6Doc c6Anchors))
    ∧ ((dedupeUrls (rawLinks c6Doc c6Anchors)).map urlStr).Nodup :=
  ⟨((c6_dedupe_first_seen c6Doc c6Anchors [] [] []).1 rfl).1,
   ((c6_dedupe_first_seen c6Doc c6Anchors [] [] []).1 rfl).2.2⟩

/-- Claim C8, confirmed: a reference that parses with empty scheme and empty
authority (every relative path does) resolves to a URL with the parent's
scheme and authority (first part); and every URL the normaliser returns is
absolute whenever the parent is (second part). -/
theorem c8_resolve_absolute :
    (∀ (parent : URL) (s : String) (ref : URL),
        urlParse (stripAfterLastHash s) = some ref → ref.scheme = "" → ref.host = "" →
          normaliseUrl parent s = some (resolveReference parent ref)
          ∧ (resolveReference parent ref).scheme = parent.scheme
          ∧ (resolveReference parent ref).host = parent.host)
    ∧ (∀ (parent : URL) (s : String) (r : URL),
        parent.scheme ≠ "" → normaliseUrl parent s = some r → r.scheme ≠ "") := by
  constructor
  · intro parent s ref h hsch hhost
    have hopaq := urlParse_scheme_empty_opaq h hsch
    refine ⟨?_, ?_, ?_⟩
    · simp only [normaliseUrl]
      rw [h]
    · rw [resolveReference_scheme, if_pos hsch]
    · unfold resolveReference
      split_ifs with h1 h2 h3 h4
      · exact absurd h1 (by simp [hsch, hhost])
      · exact absurd h2 (by simp [hopaq])
      · simp
      · simp
      · simp
  · intro parent s r hpar h
    simp only [normaliseUrl] at h
    split at h
    · exact Option.noConfusion h
    · rename_i ref href
      obtain rfl := Option.some_inj.mp h
      rw [resolveReference_scheme]
      split_ifs with hsch
      · exact hpar
      · exact hsch

/-- Witness for claim C8: the relative path `"b"` against base
`http://example.com/dir/`. -/
theorem c8_resolve_absolute_witness :
    (normaliseUrl baseDir ("b") = some (resolveReference baseDir ⟨"", "", "", "b", "", ""⟩)
      ∧ (resolveReference baseDir ⟨"", "", "", "b", "", ""⟩).scheme = baseDir.scheme
      ∧ (resolveReference baseDir ⟨"", "", "", "b", "", ""⟩).host = baseDir.host)
    ∧ (resolveReference baseDir ⟨"", "", "", "b", "", ""⟩).scheme ≠ "" :=
  ⟨c8_resolve_absolute.1 baseDir ("b") ⟨"", "", "", "b", "", ""⟩ (by decide) (by decide) (by decide),
   c8_resolve_absolute.2 baseDir ("b") (resolveReference baseDir ⟨"", "", "", "b", "", ""⟩)
     (by decide)
     ((c8_resolve_absolute.1 baseDir ("b") ⟨"", "", "", "b", "", ""⟩ (by decide) (by decide)
        (by decide)).1)⟩

theorem resolveReference_empty (base : URL) (hop : base.opaq = "")
    (hrp : resolvePath base.path ("") = base.path) :
    resolveReference base ⟨"", "", "", "", "", ""⟩ = base := by
  cases base with
  | mk bs bo bh bp bq bf =>
    simp only [resolveReference]
    simp_all

theorem normaliseUrl_empty_href (base : URL) (hop : base.opaq = "")
    (hrp : resolvePath base.path ("") = base.path) :
    normaliseUrl base ("") = some base := by
  have hp : urlParse (stripAfterLastHash ("")) = some ⟨"", "", "", "", "", ""⟩ := by decide
  simp only [normaliseUrl, hp]
  exact congrArg some (resolveReference_empty base hop hrp)

theorem findSome?_none_of_empty_src (base : URL) (l : List GoAttribute)
    (hall : ∀ a ∈ l, a.key = "src" → a.val = "") :
    (l.findSome? fun a =>
      if a.key == "src" && a.val != "" then normaliseUrl base a.val else none) = none := by
  induction l with
  | nil => rfl
  | cons a t ih =>
    rw [List.findSome?_cons]
    have hpred : (a.key == "src" && a.val != "") = false := by
      by_cases hk : a.key = "src"
      · have := hall a (List.mem_cons_self _ _) hk
        simp [hk, this]
      · simp [hk]
    simp only [hpred, Bool.false_eq_true, if_false]
    exact ih (fun b hb hk => hall b (List.mem_cons_of_mem _ hb) hk)

/-- A `"link"` element whose href is present but EMPTY, with an accepted
rel/type combination. -/
def c9LinkNode : HtmlNode :=
  ⟨NodeType.elementNode, "link",
    [⟨"rel", "stylesheet"⟩, ⟨"type", "text/css"⟩, ⟨"href", ""⟩]⟩

/-- An img element whose only `src` is empty. -/
def c9ImgNode : HtmlNode := ⟨NodeType.elementNode, "img", [⟨"src", ""⟩]⟩

/-- The C9 witness document: one empty-src img, no scripts, one
empty-href stylesheet link. -/
def c9Doc : GoqueryDocument :=
  ⟨baseEx, fun t =>
    if t = "img" then some [some c9ImgNode]
    else if t = "link" then some [some c9LinkNode]
    else some []⟩

/-- Claim C9, confirmed: a `"link"` node whose (last) `href` is present but
empty, with an accepted rel/type combination, emits the document's origin URL
itself as an asset — the empty href is not rejected (unlike an empty `src`
for img/script, which contributes nothing: second part) and the empty
reference resolves to the base URL (first part; the base is assumed
hierarchical with an already-clean path, which `resolvePath` fixes).  Third
part: on a concrete document the assets sequence is exactly the origin URL. -/
theorem c9_empty_href_yields_base :
    (∀ (base : URL) (node : HtmlNode),
        base.opaq = "" →
        resolvePath base.path ("") = base.path →
        lastAttrVal ("href") node.attr = some ("") →
        (((lastAttrVal ("rel") node.attr).getD "" = "stylesheet"
            ∧ (lastAttrVal ("type") node.attr).getD "" = "text/css")
          ∨ (lastAttrVal ("rel") node.attr).getD "" = "shortcut icon") →
        linkNodeAsset base (some node) = some base)
    ∧ (∀ (base : URL) (node : HtmlNode),
        (∀ a ∈ node.attr, a.key = "src" → a.val = "") →
        imgScriptAsset base (some node) = none)
    ∧ fetcherExtractAssets (some c9Doc) = some [baseEx] := by
  refine ⟨?_, ?_, ?_⟩
  · intro base node hop hrp hhref hcombo
    rw [linkNodeAsset_eq_spec]
    simp only [linkAssetSpec, hhref, normaliseUrl_empty_href base hop hrp]
    rcases hcombo with hcombo | hcombo
    · rw [if_pos hcombo]
    · have hns : ¬ ((lastAttrVal ("rel") node.attr).getD "" = "stylesheet"
          ∧ (lastAttrVal ("type") node.attr).getD "" = "text/css") := by
        rw [hcombo]
        simp
      rw [if_neg hns, if_pos hcombo]
  · intro base node hall
    simp only [imgScriptAsset]
    exact findSome?_none_of_empty_src base node.attr hall
  · decide

/-- Witness for claim C9 at the concrete nodes and base. -/
theorem c9_empty_href_yields_base_witness :
    linkNodeAsset baseEx (some c9LinkNode) = some baseEx
    ∧ imgScriptAsset baseEx (some c9ImgNode) = none :=
  ⟨c9_empty_href_yields_base.1 baseEx c9LinkNode (by decide) (by decide) (by decide) (by decide),
   c9_empty_href_yields_base.2.1 baseEx c9ImgNode (by decide)⟩

/-- An anchor whose later empty href overwrites its earlier non-empty one. -/
def c10NodeOverwrite : HtmlNode :=
  ⟨NodeType.elementNode, "a", [⟨"href", "x.html"⟩, ⟨"href", ""⟩]⟩

/-- The C10 witness document: a duplicate pair of plain anchors around the
overwritten one. -/
def c10Doc : GoqueryDocument :=
  ⟨baseEx, fun t =>
    if t = "a" then some [some (anchorNode ("y.html")), some c10NodeOverwrite,
      some (anchorNode ("y.html"))]
    else some []⟩

/-- Claim C10, confirmed: main.go's standalone `extractLinks` keeps, for each
anchor element, the value of its LAST `href` attribute (so a later href —
including an empty one — overwrites an earlier non-empty one, and an empty
final value skips the node), and returns the raw attribute strings with no
normalisation against the origin URL and no deduplication (first conjunct:
the whole result is a plain filterMap of raw strings).  Second conjunct: on a
concrete document, a repeated href appears twice and the overwritten anchor
is skipped. -/
theorem c10_main_extract_raw :
    (∀ (d : GoqueryDocument) (nodes : List HtmlNode),
        d.find ("a") = some (nodes.map some) →
          mainExtractLinks (some d)
            = some (nodes.filterMap (fun node =>
                if node.type = NodeType.elementNode ∧ node.dataAtom = "a" then
                  match lastAttrVal ("href") node.attr with
                  | none => none
                  | some v => if v = "" then none else some v
                else none)))
    ∧ mainExtractLinks (some c10Doc) = some [("y.html" : String), ("y.html" : String)] := by
  constructor
  · intro d nodes h
    simp only [mainExtractLinks, h]
    rw [if_pos (by simp)]
    have hid : (nodes.map some).filterMap id = nodes := by simp
    rw [hid]
    congr 1
    refine congrArg (fun f => List.filterMap f nodes) (funext (fun node => ?_))
    rw [lastKeyVal_eq_lastAttrVal]
    cases hv : lastAttrVal ("href") node.attr with
    | none => simp
    | some v => simp
  · decide

/-- Witness for claim C10 at the concrete document `c10Doc`. -/
theorem c10_main_extract_raw_witness :
    mainExtractLinks (some c10Doc)
      = some ([some (anchorNode ("y.html")), some c10NodeOverwrite,
          some (anchorNode ("y.html"))].filterMap (fun n => n) |>.filterMap (fun node =>
            if node.type = NodeType.elementNode ∧ node.dataAtom = "a" then
              match lastAttrVal ("href") node.attr with
              | none => none
              | some v => if v = "" then none else some v
            else none)) := by
  have := c10_main_extract_raw.1 c10Doc
    [anchorNode ("y.html"), c10NodeOverwrite, anchorNode ("y.html")] rfl
  rw [this]
  decide

end Kraken
